import Mathlib

/-!
# HusbandsGames — verification of the catalog client core

Shallow embedding of the client-side core of the HusbandsGames repository
(`src/App.js`): the CSV exporter, the sort engine, the CRUD mutator
reconciliation rules, and the session manager.  JavaScript objects are
modelled as ordered association lists over a small JSON value type, strings
as `List Char`, and each React handler as a pure state-transition function.
-/

set_option maxHeartbeats 1000000
set_option autoImplicit false

namespace HG

/-- A JavaScript number as a finite decimal (mantissa, scale): the pair
`(m, s)` stands for `m / 10 ^ s`. -/
abbrev JsNum := Int × Nat

/-- JSON-like runtime values stored in a game record.  A JavaScript number
is modelled as the finite decimal `m / 10 ^ s` (mantissa and scale), which
covers every numeric value the catalog holds (integer ids, years, and
two-decimal prices). -/
inductive JVal where
  | vNull : JVal
  | vBool (b : Bool) : JVal
  | vNum (m : Int) (s : Nat) : JVal
  | vStr (cs : List Char) : JVal
deriving DecidableEq

/-- A fetched record is a JavaScript object: an ordered list of
key/value pairs (`Object.keys` order). -/
abbrev JObj := List (List Char × JVal)

/-- `item[key]`: first binding of `key`, `none` models `undefined`. -/
def objGet (r : JObj) (k : List Char) : Option JVal :=
  match r with
  | [] => none
  | (k', v) :: rest => if k' = k then some v else objGet rest k

/-- `Object.keys(item)`. -/
def objKeys (r : JObj) : List (List Char) := r.map Prod.fst

/-- `[...new Set(l)]`: deduplication keeping the first occurrence of each
element, in order. -/
def dedupFirst (l : List (List Char)) : List (List Char) :=
  l.foldl (fun acc k => if k ∈ acc then acc else acc ++ [k]) []

/-- `[...new Set(data.flatMap(item => Object.keys(item)))]` from
`exportToCSV` / `getColumnHeaders`: the first-seen union of keys. -/
def allKeys (rs : List JObj) : List (List Char) :=
  dedupFirst (rs.flatMap objKeys)

/-- One decimal digit as a character. -/
def digitChar (n : Nat) : Char :=
  if n = 0 then '0' else if n = 1 then '1' else if n = 2 then '2'
  else if n = 3 then '3' else if n = 4 then '4' else if n = 5 then '5'
  else if n = 6 then '6' else if n = 7 then '7' else if n = 8 then '8'
  else '9'

/-- Decimal digits, fuel-driven so that the kernel can evaluate it (the
fuel `n + 1` always suffices since the argument shrinks ten-fold). -/
def natCharsAux : Nat → Nat → List Char
  | 0, _ => []
  | fuel + 1, n =>
      if n < 10 then [digitChar n]
      else natCharsAux fuel (n / 10) ++ [digitChar (n % 10)]

/-- Decimal digits of a natural number (most significant first). -/
def natChars (n : Nat) : List Char := natCharsAux (n + 1) n

/-- Left-pad with `'0'` up to length `n`. -/
def padZero (ds : List Char) (n : Nat) : List Char :=
  List.replicate (n - ds.length) '0' ++ ds

/-- Rendering of the modelled number `m / 10 ^ s` the way JavaScript
stringifies the corresponding finite decimal (`String(21.26) = "21.26"`,
`String(1) = "1"`, `String(0.5) = "0.5"`). -/
def renderNum (m : Int) (s : Nat) : List Char :=
  if s = 0 then (if m < 0 then ['-'] else []) ++ natChars m.natAbs
  else
    (if m < 0 then ['-'] else []) ++
      ((padZero (natChars m.natAbs) (s + 1)).take
          ((padZero (natChars m.natAbs) (s + 1)).length - s) ++
        '.' :: (padZero (natChars m.natAbs) (s + 1)).drop
          ((padZero (natChars m.natAbs) (s + 1)).length - s))

/-- JavaScript `String(v)` for the values that can appear in a record. -/
def renderVal : JVal → List Char
  | .vNull => ['n', 'u', 'l', 'l']
  | .vBool true => ['t', 'r', 'u', 'e']
  | .vBool false => ['f', 'a', 'l', 's', 'e']
  | .vNum m s => renderNum m s
  | .vStr cs => cs

/-- `value.replace(/"/g, '""')`: double every double-quote. -/
def dupQuotes : List Char → List Char
  | [] => []
  | c :: cs => if c = '"' then '"' :: '"' :: dupQuotes cs else c :: dupQuotes cs

/-- One CSV cell of `exportToCSV`: `undefined`/`null` become the empty
string (`value ?? ''`), a string containing a comma or a double-quote is
wrapped in doubled-quote escaping, anything else is stringified plainly. -/
def csvCell (r : JObj) (k : List Char) : List Char :=
  match objGet r k with
  | none => []
  | some .vNull => []
  | some (.vStr cs) =>
      if ',' ∈ cs ∨ '"' ∈ cs then '"' :: (dupQuotes cs ++ ['"']) else cs
  | some v => renderVal v

/-- `list.join(sep)` on pre-rendered pieces. -/
def sepJoin (sep : Char) : List (List Char) → List Char
  | [] => []
  | [x] => x
  | x :: xs => x ++ sep :: sepJoin sep xs

/-- The data rows built by `exportToCSV`. -/
def csvRows (rs : List JObj) : List (List Char) :=
  rs.map (fun r => sepJoin ',' ((allKeys rs).map (csvCell r)))

/-- `[header, ...rows].join('\n')`: the full CSV text. -/
def csvContent (rs : List JObj) : List Char :=
  sepJoin '\n' (sepJoin ',' (allKeys rs) :: csvRows rs)

/-- `exportToCSV`: returns no file at all when the record set is empty
(`if (!data.length) return;`), otherwise the CSV text offered for
download. -/
def exportToCSV (rs : List JObj) : Option (List Char) :=
  if rs.length = 0 then none else some (csvContent rs)

/-- `getColumnHeaders`: empty list for an empty record set, otherwise the
first-seen union of keys. -/
def getColumnHeaders (rs : List JObj) : List (List Char) :=
  if rs.length = 0 then [] else allKeys rs

/-! ## A conforming CSV reader (specification side of the round-trip) -/

/-- Quote-aware splitting: break the text at every occurrence of `sep`
that lies outside double quotes (`q` tracks whether we are inside a quoted
region; doubled quotes toggle it twice and therefore stay inside). -/
def splitOutside (sep : Char) (q : Bool) : List Char → List (List Char)
  | [] => [[]]
  | c :: cs =>
      if c = sep ∧ q = false then [] :: splitOutside sep false cs
      else
        match splitOutside sep (if c = '"' then !q else q) cs with
        | [] => [[c]]
        | r :: rs => (c :: r) :: rs

/-- Body of a quoted field: collapse doubled quotes, stop at the closing
quote (anything after a closing quote inside a field is not well-formed
CSV and is dropped). -/
def unquoteBody : List Char → List Char
  | [] => []
  | c :: cs =>
      if c = '"' then
        match cs with
        | [] => []
        | c2 :: cs2 => if c2 = '"' then '"' :: unquoteBody cs2 else []
      else c :: unquoteBody cs

/-- A field as a conforming reader recovers it: a field starting with a
double quote is unescaped, anything else is taken verbatim. -/
def unquoteField (f : List Char) : List Char :=
  match f with
  | [] => []
  | c :: rest => if c = '"' then unquoteBody rest else f

/-- A conforming CSV parser: records split on newlines outside quotes,
fields split on commas outside quotes, each field unescaped. -/
def parseCSV (cs : List Char) : List (List (List Char)) :=
  (splitOutside '\n' false cs).map
    (fun row => (splitOutside ',' false row).map unquoteField)

/-- Direct stringification of one cell of the original table: a missing
key or a `null` value stringifies to the empty string. -/
def cellString (r : JObj) (k : List Char) : List Char :=
  match objGet r k with
  | none => []
  | some .vNull => []
  | some v => renderVal v

/-- The table of strings the round-trip claim expects a conforming reader
to recover from the exported CSV: the column keys, then one row of
directly-stringified cells per record. -/
def expectedTable (rs : List JObj) : List (List (List Char)) :=
  allKeys rs :: rs.map (fun r => (allKeys rs).map (fun k => cellString r k))

/-- A key that CSV serialization leaves intact (the exporter never quotes
the header row). -/
def plainKey (k : List Char) : Prop := ',' ∉ k ∧ '"' ∉ k ∧ '\n' ∉ k

/-- A value whose string form contains no newline (the exporter only
quotes on commas and double-quotes, so a bare newline breaks the row
structure). -/
def noNewlineVal : JVal → Prop
  | .vStr cs => '\n' ∉ cs
  | _ => True

/-- `cell` contributes no field boundary for `sep`: prepended to any
remaining text, it merely extends the first field the splitter recovers.
This is the key compositional property of CSV-escaped cells. -/
def NoSplit (sep : Char) (cell : List Char) : Prop :=
  ∀ rest r rs, splitOutside sep false rest = r :: rs →
    splitOutside sep false (cell ++ rest) = (cell ++ r) :: rs

/-- The record set exhibiting the round-trip failure: a single record
whose `title` contains a newline but neither a comma nor a quote. -/
def c2BadData : List JObj := [[("title".toList, .vStr ['a', '\n', 'b'])]]

instance (k : List Char) : Decidable (plainKey k) := by
  unfold plainKey; infer_instance

instance (v : JVal) : Decidable (noNewlineVal v) := by
  cases v <;> unfold noNewlineVal <;> infer_instance

/-- The spec's end-to-end example record
`{id:1, title:"Doom Eternal", platform:"PS4", price:21.26}`. -/
def c3Example : JObj :=
  [("id".toList, .vNum 1 0), ("title".toList, .vStr "Doom Eternal".toList),
   ("platform".toList, .vStr "PS4".toList), ("price".toList, .vNum 2126 2)]

/-- A heterogeneous record set whose first-seen key union differs from the
alphabetical order. -/
def c3Hetero : List JObj :=
  [[("id".toList, .vNum 1 0), ("title".toList, .vStr "A".toList)],
   [("aaa".toList, .vNum 2 0)]]

/-- A record set with a quoted value, a null, a missing key, a number and
a boolean, used to witness the round-trip. -/
def c2WitnessData : List JObj :=
  [[("t".toList, .vStr "a,\"b".toList), ("u".toList, .vNull)],
   [("t".toList, .vNum 1 0), ("v".toList, .vBool true)]]

/-! ## Sort engine: direction toggle (`handleSort`) -/

/-- `sortConfig.direction`: the string `'asc'` or `'desc'`. -/
inductive SortDir where
  | asc : SortDir
  | desc : SortDir
deriving DecidableEq

/-- `sortConfig` state: `key` is `null` on initial load, `direction`
starts as `'asc'`. -/
structure SortConfig where
  key : Option String
  direction : SortDir
deriving DecidableEq

/-- Initial `useState({ key: null, direction: 'asc' })`. -/
def initialSortConfig : SortConfig := ⟨none, .asc⟩

/-- `handleSort(key)`: direction defaults to `'asc'` and becomes `'desc'`
only when the clicked key is already sorted ascending. -/
def handleSort (k : String) (cfg : SortConfig) : SortConfig :=
  if cfg.key = some k ∧ cfg.direction = .asc
  then { key := some k, direction := .desc }
  else { key := some k, direction := .asc }

/-! ## Sort engine: the derived `sortedData` view -/

/-- Is `c` an ASCII decimal digit? -/
def isDigitCh (c : Char) : Bool := decide (48 ≤ c.toNat) && decide (c.toNat ≤ 57)

/-- Whitespace for JavaScript's string-to-number trimming. -/
def isWsCh (c : Char) : Bool := c = ' ' || c = '\t' || c = '\n' || c = '\r'

/-- Value of `[0..9]` digits, most significant first. -/
def digitsToNat (ds : List Char) : Nat :=
  ds.foldl (fun n c => 10 * n + (c.toNat - 48)) 0

/-- JavaScript `ToNumber` applied to a string, for the plain decimal forms
`[ws] [sign] digits [. digits] [ws]` an inventory field can hold (`none`
models `NaN`; exotic literal forms such as hex or exponents are outside
the model).  The empty (or all-whitespace) string converts to `0`. -/
def strToNum (cs : List Char) : Option JsNum :=
  let t := ((cs.dropWhile isWsCh).reverse.dropWhile isWsCh).reverse
  if t = [] then some (0, 0)
  else
    let (neg, body) :=
      match t with
      | '-' :: r => (true, r)
      | '+' :: r => (false, r)
      | r => (false, r)
    let ip := body.takeWhile isDigitCh
    let rest := body.dropWhile isDigitCh
    let sign : Int → Int := fun n => if neg then -n else n
    match rest with
    | [] => if ip = [] then none else some (sign (digitsToNat ip), 0)
    | '.' :: fp =>
        if fp.all isDigitCh ∧ (ip ≠ [] ∨ fp ≠ []) then
          some (sign (digitsToNat (ip ++ fp)), fp.length)
        else none
    | _ => none

/-- JavaScript `ToNumber` on a primitive value (`none` models `NaN`). -/
def toNumber : JVal → Option JsNum
  | .vNull => some (0, 0)
  | .vBool b => some (if b then 1 else 0, 0)
  | .vNum m s => some (m, s)
  | .vStr cs => strToNum cs

/-- Comparison of two modelled numbers `a.1 / 10 ^ a.2 < b.1 / 10 ^ b.2`. -/
def numLt (a b : JsNum) : Bool :=
  decide (a.1 * (10 : Int) ^ b.2 < b.1 * (10 : Int) ^ a.2)

/-- JavaScript string `<`: lexicographic by code unit. -/
def strLtJS : List Char → List Char → Bool
  | _, [] => false
  | [], _ :: _ => true
  | c :: cs, d :: ds => if c = d then strLtJS cs ds else decide (c.toNat < d.toNat)

/-- JavaScript `<` on two primitive values: string/string compares
lexicographically, everything else converts both sides with `ToNumber`;
any `NaN` makes the comparison false. -/
def jsValLt (x y : JVal) : Bool :=
  match x, y with
  | .vStr a, .vStr b => strLtJS a b
  | _, _ =>
      match toNumber x, toNumber y with
      | some a, some b => numLt a b
      | _, _ => false

/-- `aValue < bValue` where a missing key yields `undefined` (every
comparison against `undefined` is false). -/
def optValLt : Option JVal → Option JVal → Bool
  | some x, some y => jsValLt x y
  | _, _ => false

/-- The record comparison `a[sortConfig.key] < b[sortConfig.key]`. -/
def recLt (k : List Char) (a b : JObj) : Bool :=
  optValLt (objGet a k) (objGet b k)

/-- The comparator closure passed to `sort`: `-1`/`1`/`0` depending on
`<`, `>` and the direction. -/
def jsCompare {α : Type} (lt : α → α → Bool) (asc : Bool) (a b : α) : Int :=
  if lt a b then (if asc then -1 else 1)
  else if lt b a then (if asc then 1 else -1)
  else 0

/-- Insertion of `a` into `l` guided by a comparator (`cmp a b ≤ 0` means
the comparator puts `a` no later than `b`). -/
def insertCmp {α : Type} (cmp : α → α → Int) (a : α) : List α → List α
  | [] => [a]
  | b :: l => if cmp a b ≤ 0 then a :: b :: l else b :: insertCmp cmp a l

/-- `[...data].sort(comparator)`: a comparison sort consistent with the
comparator (deterministically modelled as insertion sort). -/
def sortByCmp {α : Type} (cmp : α → α → Int) : List α → List α
  | [] => []
  | a :: l => insertCmp cmp a (sortByCmp cmp l)

/-- The `sortedData` memo: the fetch order when no key is set, otherwise a
new array sorted by the comparator on `sortConfig.key` and
`sortConfig.direction`. -/
def sortedData (data : List JObj) (cfg : SortConfig) : List JObj :=
  match cfg.key with
  | none => data
  | some k => sortByCmp (jsCompare (recLt k.toList) (cfg.direction = .asc)) data

/-! ## Session manager (`AdminLoginModal.handleSubmit`, `handleAdminLogin`,
`handleAdminLogout`, restore `useEffect`) -/

/-- Outcome of `fetch(API_URL + '/login')`: `response.ok` with the parsed
payload, or a non-2xx response carrying its HTTP status. -/
inductive LoginResponse where
  | success (token : String) (user : String) : LoginResponse
  | failure (status : Nat) : LoginResponse

/-- Client-side session state: the in-memory admin flag/token/user and the
two durable `localStorage` keys, plus the login modal's error message. -/
structure SessionState where
  isAdmin : Bool
  adminToken : Option String
  adminUser : Option String
  storedToken : Option String
  storedUser : Option String
  loginError : String
deriving DecidableEq

/-- `handleAdminLogin(authToken, userData)`: set the in-memory state and
write both `localStorage` keys. -/
def handleAdminLogin (t u : String) (st : SessionState) : SessionState :=
  { st with isAdmin := true, adminToken := some t, adminUser := some u,
            storedToken := some t, storedUser := some u }

/-- `handleAdminLogout()`: clear the in-memory state and remove both
`localStorage` keys. -/
def handleAdminLogout (st : SessionState) : SessionState :=
  { st with isAdmin := false, adminToken := none, adminUser := none,
            storedToken := none, storedUser := none }

/-- The mount-time restore `useEffect`: reinstate the admin state if both
keys are present; it never writes to storage. -/
def restoreSession (st : SessionState) : SessionState :=
  match st.storedToken, st.storedUser with
  | some t, some u =>
      { st with isAdmin := true, adminToken := some t, adminUser := some u }
  | _, _ => st

/-- `AdminLoginModal.handleSubmit` after the response arrives: `setError('')`
first; a non-ok response throws `Error('Invalid admin credentials')` which
the surrounding catch turns into the modal's error message; an ok response
invokes `onLogin` (= `handleAdminLogin`). -/
def handleLoginSubmit (resp : LoginResponse) (st : SessionState) : SessionState :=
  match resp with
  | .success t u => handleAdminLogin t u { st with loginError := "" }
  | .failure _ => { st with loginError := "Invalid admin credentials" }

/-! ## CRUD mutator (`handleAddGame`, `handleUpdateGame`, `handleSaveGame`,
`handleDeleteGame`) -/

/-- A game record as stored in the local `data` state: `id` and `title`
are always present, the optional fields are nullable. -/
structure Game where
  id : Int
  title : String
  platform : Option String
  genre : Option String
  release_year : Option Int
  price : Option JsNum
  region : Option String
  publisher : Option String
  opened : Bool
  created_at : String
deriving DecidableEq

/-- The processed form submission built by the edit/save modals
(`processedData`): text fields are strings (empty when the form field is
empty), the numeric fields are already `null` when the form field was
empty, `opened` is a boolean, and `id` is present exactly when editing. -/
structure SubmitData where
  id : Option Int
  title : String
  platform : String
  genre : String
  release_year : Option Int
  price : Option JsNum
  region : String
  publisher : String
  opened : Bool
deriving DecidableEq

/-- The body `handleUpdateGame` PUTs to the server: the form submission
verbatim (`body: JSON.stringify(updatedGameData)` — no merge with the
stored record). -/
def handleUpdateGameBody (form : SubmitData) : SubmitData := form

/-- The field set `handleSaveGame` sends on its edit path (`dataToSend`). -/
structure SendBody where
  title : String
  platform : Option String
  genre : Option String
  release_year : Option Int
  price : Option JsNum
  region : Option String
  publisher : Option String
  opened : Bool
deriving DecidableEq

/-- `gameData.field || originalGame.field` for an optional text field: an
empty incoming string falls back to the stored (possibly null) value. -/
def mergeText (formVal : String) (orig : Option String) : Option String :=
  if formVal = "" then orig else some formVal

/-- `handleSaveGame`'s edit-path `dataToSend`: each text field keeps the
stored value when the form field is empty (`||` fallback), each numeric
field keeps the stored value when the incoming value is `null`
(`!== null` test), and `opened` is always the form's boolean. -/
def mergeForUpdate (form : SubmitData) (orig : Game) : SendBody :=
  { title := if form.title = "" then orig.title else form.title
    platform := mergeText form.platform orig.platform
    genre := mergeText form.genre orig.genre
    release_year :=
      match form.release_year with
      | some y => some y
      | none => orig.release_year
    price :=
      match form.price with
      | some p => some p
      | none => orig.price
    region := mergeText form.region orig.region
    publisher := mergeText form.publisher orig.publisher
    opened := form.opened }

/-- Local catalog state: the `data` record list and the error banner. -/
structure CatalogState where
  data : List Game
  error : Option String
deriving DecidableEq

/-- Outcome of a create/update request: `response.ok` with the record the
server returned, or a non-2xx response with its status. -/
inductive MutResponse where
  | ok (g : Game) : MutResponse
  | fail (status : Nat) : MutResponse

/-- Outcome of a delete request (no response body on success). -/
inductive DelResponse where
  | ok : DelResponse
  | fail (status : Nat) : DelResponse

/-- `handleAddGame` after the response arrives: append the server-returned
record on success; on any failure the catch sets the banner message and
leaves `data` untouched. -/
def handleAddGame (resp : MutResponse) (st : CatalogState) : CatalogState :=
  match resp with
  | .ok g => { st with data := st.data ++ [g] }
  | .fail _ => { st with error := some "Failed to add game. Please try again." }

/-- `handleUpdateGame` after the response arrives: replace-in-place the
record sharing the returned `id`; on failure set the banner and leave
`data` untouched. -/
def handleUpdateGame (resp : MutResponse) (st : CatalogState) : CatalogState :=
  match resp with
  | .ok g => { st with data := st.data.map (fun x => if x.id = g.id then g else x) }
  | .fail _ => { st with error := some "Failed to update game. Please try again." }

/-- `handleDeleteGame(gameId)`: nothing happens without the confirmation;
on a confirmed ok response the local set is filtered by `id`; on failure
the banner is set and `data` is untouched. -/
def handleDeleteGame (confirmed : Bool) (resp : DelResponse) (gid : Int)
    (st : CatalogState) : CatalogState :=
  if ¬ confirmed then st
  else
    match resp with
    | .ok => { st with data := st.data.filter (fun g => g.id ≠ gid) }
    | .fail _ => { st with error := some "Failed to delete game. Please try again." }

/-- The storage-mutating operations reachable in the app, for the paired
`admin_token`/`admin_user` invariant. -/
inductive SessionOp where
  | login (t u : String) : SessionOp
  | logout : SessionOp
  | restore : SessionOp

/-- Run one reachable session operation. -/
def applySessionOp (st : SessionState) : SessionOp → SessionState
  | .login t u => handleAdminLogin t u st
  | .logout => handleAdminLogout st
  | .restore => restoreSession st

/-- Run a sequence of session operations. -/
def runSessionOps (st : SessionState) (ops : List SessionOp) : SessionState :=
  ops.foldl applySessionOp st

/-- The paired-storage invariant: the two durable keys are both present or
both absent. -/
def pairedStorage (st : SessionState) : Prop :=
  st.storedToken.isSome = st.storedUser.isSome

instance (st : SessionState) : Decidable (pairedStorage st) := by
  unfold pairedStorage; infer_instance

end HG

/-- The stored record used to exhibit C1's failure on the
`handleUpdateGame` path. -/
def c1Orig : HG.Game :=
  { id := 7, title := "Doom Eternal", platform := some "PS4",
    genre := some "Shooter", release_year := some 2020,
    price := some (2126, 2), region := some "NA",
    publisher := some "Bethesda", opened := true,
    created_at := "2024-01-01" }

/-- An update submission for record 7 whose `platform` form field was
cleared (empty incoming value). -/
def c1Form : HG.SubmitData :=
  { id := some 7, title := "Doom Eternal", platform := "", genre := "",
    release_year := none, price := none, region := "", publisher := "",
    opened := false }

/-- An update submission carrying only `opened := false`, all other form
fields empty. -/
def c1EmptyForm : HG.SubmitData :=
  { id := some 7, title := "", platform := "", genre := "",
    release_year := none, price := none, region := "", publisher := "",
    opened := false }

/-- The record set used to witness C5 (distinct numeric prices). -/
def c5Data : List HG.JObj :=
  [[("id".toList, .vNum 1 0), ("price".toList, .vNum 2126 2)],
   [("id".toList, .vNum 2 0), ("price".toList, .vNum 5 0)],
   [("id".toList, .vNum 3 0), ("price".toList, .vNum 1035 1)]]

/-- C10: for the empty record set the CSV exporter returns immediately and
produces no output (no header row, no file), and the derived column-header
list is empty. -/
theorem c10_export_empty :
    HG.exportToCSV [] = none ∧ HG.getColumnHeaders [] = [] :=
  ⟨rfl, rfl⟩

namespace HG

/-! ### Sort-engine lemmas -/

section SortLemmas

variable {α : Type}

theorem jsCompare_desc_neg (lt : α → α → Bool) (a b : α) :
    jsCompare lt false a b = - jsCompare lt true a b := by
  unfold jsCompare
  by_cases h1 : lt a b <;> by_cases h2 : lt b a <;> simp [h1, h2]

theorem jsCompare_neg_iff (lt : α → α → Bool) (a b : α) :
    jsCompare lt true a b < 0 ↔ lt a b := by
  unfold jsCompare
  by_cases h1 : lt a b <;> by_cases h2 : lt b a <;> simp [h1, h2]

theorem jsCompare_pos_iff (lt : α → α → Bool) (a b : α) :
    0 < jsCompare lt true a b ↔ (¬ lt a b ∧ lt b a) := by
  unfold jsCompare
  by_cases h1 : lt a b <;> by_cases h2 : lt b a <;> simp [h1, h2]

theorem jsCompare_le_iff (lt : α → α → Bool) (a b : α) :
    jsCompare lt true a b ≤ 0 ↔ (lt a b ∨ (¬ lt a b ∧ ¬ lt b a)) := by
  unfold jsCompare
  by_cases h1 : lt a b <;> by_cases h2 : lt b a <;> simp [h1, h2]

theorem insertCmp_perm (cmp : α → α → Int) (a : α) (l : List α) :
    List.Perm (insertCmp cmp a l) (a :: l) := by
  induction l with
  | nil => exact List.Perm.refl _
  | cons b m ih =>
      unfold insertCmp
      by_cases h : cmp a b ≤ 0
      · rw [if_pos h]
      · rw [if_neg h]
        exact (ih.cons b).trans (List.Perm.swap a b m)

theorem sortByCmp_perm (cmp : α → α → Int) (l : List α) :
    List.Perm (sortByCmp cmp l) l := by
  induction l with
  | nil => exact List.Perm.refl _
  | cons a m ih => exact (insertCmp_perm cmp a _).trans (ih.cons a)

theorem insertCmp_append_last (cmp : α → α → Int) (a b : α) (m : List α)
    (h : cmp a b ≤ 0) :
    insertCmp cmp a (m ++ [b]) = insertCmp cmp a m ++ [b] := by
  induction m with
  | nil => simp [insertCmp, h]
  | cons c m ih =>
      by_cases hc : cmp a c ≤ 0 <;> simp [insertCmp, hc, ih]

theorem insertCmp_all_gt (cmp : α → α → Int) (a : α) (m : List α)
    (h : ∀ x ∈ m, ¬ cmp a x ≤ 0) :
    insertCmp cmp a m = m ++ [a] := by
  induction m with
  | nil => rfl
  | cons c m ih =>
      have hc := h c (List.mem_cons_self c m)
      simp [insertCmp, hc,
        ih (fun x hx => h x (List.mem_cons_of_mem _ hx))]

theorem insertCmp_pairwise (cmp : α → α → Int) (a : α) (m : List α)
    (hm : m.Pairwise (fun x y => cmp x y ≤ 0))
    (hcomp : ∀ x ∈ m, cmp a x ≤ 0 ∨ cmp x a ≤ 0)
    (htr : ∀ x ∈ m, ∀ y ∈ m, cmp a x ≤ 0 → cmp x y ≤ 0 → cmp a y ≤ 0) :
    (insertCmp cmp a m).Pairwise (fun x y => cmp x y ≤ 0) := by
  induction m with
  | nil => simp [insertCmp]
  | cons b m ih =>
      rw [List.pairwise_cons] at hm
      obtain ⟨hb, hm'⟩ := hm
      by_cases h : cmp a b ≤ 0
      · simp only [insertCmp, if_pos h]
        refine List.Pairwise.cons ?_ (List.Pairwise.cons hb hm')
        intro y hy
        rcases List.mem_cons.1 hy with rfl | hy'
        · exact h
        · exact htr b (List.mem_cons_self b m) y (List.mem_cons_of_mem _ hy')
            h (hb y hy')
      · simp only [insertCmp, if_neg h]
        refine List.Pairwise.cons ?_
          (ih hm' (fun x hx => hcomp x (List.mem_cons_of_mem _ hx))
            (fun x hx y hy =>
              htr x (List.mem_cons_of_mem _ hx) y (List.mem_cons_of_mem _ hy)))
        intro y hy
        have hy2 : y ∈ a :: m := (insertCmp_perm cmp a m).mem_iff.1 hy
        rcases List.mem_cons.1 hy2 with rfl | hy'
        · rcases hcomp b (List.mem_cons_self b m) with hba | hba
          · exact absurd hba h
          · exact hba
        · exact hb y hy'

theorem sortByCmp_pairwise (cmp : α → α → Int) (l : List α)
    (hcomp : ∀ x ∈ l, ∀ y ∈ l, cmp x y ≤ 0 ∨ cmp y x ≤ 0)
    (htr : ∀ x ∈ l, ∀ y ∈ l, ∀ z ∈ l, cmp x y ≤ 0 → cmp y z ≤ 0 → cmp x z ≤ 0) :
    (sortByCmp cmp l).Pairwise (fun x y => cmp x y ≤ 0) := by
  induction l with
  | nil => simp [sortByCmp]
  | cons a l ih =>
      have hsub : ∀ x ∈ sortByCmp cmp l, x ∈ l :=
        fun x hx => (sortByCmp_perm cmp l).mem_iff.1 hx
      refine insertCmp_pairwise cmp a _
        (ih (fun x hx y hy =>
              hcomp x (List.mem_cons_of_mem _ hx) y (List.mem_cons_of_mem _ hy))
            (fun x hx y hy z hz =>
              htr x (List.mem_cons_of_mem _ hx) y (List.mem_cons_of_mem _ hy)
                z (List.mem_cons_of_mem _ hz)))
        (fun x hx =>
          hcomp a (List.mem_cons_self a l) x (List.mem_cons_of_mem _ (hsub x hx)))
        (fun x hx y hy =>
          htr a (List.mem_cons_self a l) x (List.mem_cons_of_mem _ (hsub x hx))
            y (List.mem_cons_of_mem _ (hsub y hy)))

theorem insertCmp_desc_reverse (lt : α → α → Bool) (a : α) (s : List α)
    (hs : s.Pairwise (fun x y => jsCompare lt true x y ≤ 0))
    (hab : ∀ x ∈ s, lt a x ∨ lt x a)
    (hpair : ∀ x ∈ s, ∀ y ∈ s, x = y ∨ lt x y ∨ lt y x)
    (htr : ∀ x ∈ a :: s, ∀ y ∈ a :: s, ∀ z ∈ a :: s, lt x y → lt y z → lt x z)
    (hasym : ∀ x ∈ a :: s, ∀ y ∈ a :: s, lt x y → ¬ lt y x) :
    insertCmp (jsCompare lt false) a s.reverse
      = (insertCmp (jsCompare lt true) a s).reverse := by
  induction s using List.reverseRecOn with
  | nil => rfl
  | append_singleton s' b ih =>
      have hmem_b : b ∈ s' ++ [b] := by simp
      have hmem_s' : ∀ x ∈ s', x ∈ s' ++ [b] := fun x hx => by simp [hx]
      have hmemc : ∀ x ∈ s' ++ [b], x ∈ a :: (s' ++ [b]) :=
        fun x hx => List.mem_cons_of_mem _ hx
      have ha_mem : a ∈ a :: (s' ++ [b]) := List.mem_cons_self _ _
      have hRb : ∀ x ∈ s', jsCompare lt true x b ≤ 0 := by
        rw [List.pairwise_append] at hs
        intro x hx
        exact hs.2.2 x hx b (List.mem_singleton_self b)
      have hs' : s'.Pairwise (fun x y => jsCompare lt true x y ≤ 0) := by
        rw [List.pairwise_append] at hs
        exact hs.1
      rw [List.reverse_append, List.reverse_singleton, List.singleton_append]
      by_cases hD : jsCompare lt false a b ≤ 0
      · -- the comparator already puts `a` after everything: `a` is the new
        -- maximum, so it lands at the front descending and at the back
        -- ascending
        have h0 : 0 ≤ jsCompare lt true a b := by
          rw [jsCompare_desc_neg] at hD; omega
        have hba : lt b a := by
          rcases hab b hmem_b with h | h
          · exact absurd ((jsCompare_neg_iff lt a b).2 h) (by omega)
          · exact h
        have hall : ∀ x ∈ s' ++ [b], ¬ jsCompare lt true a x ≤ 0 := by
          intro x hx
          rcases List.mem_append.1 hx with hx' | hx'
          · have hxa : lt x a := by
              rcases (jsCompare_le_iff lt x b).1 (hRb x hx') with h | ⟨h1, h2⟩
              · exact htr x (hmemc x hx) b (hmemc b hmem_b) a ha_mem h hba
              · rcases hpair x hx b hmem_b with rfl | h' | h'
                · exact hba
                · exact absurd h' h1
                · exact absurd h' h2
            have hnax : ¬ lt a x := hasym x (hmemc x hx) a ha_mem hxa
            intro hle
            rcases (jsCompare_le_iff lt a x).1 hle with h' | ⟨h1', h2'⟩
            · exact hnax h'
            · exact h2' hxa
          · rw [List.mem_singleton] at hx'
            rw [hx']
            have hnab : ¬ lt a b := hasym b (hmemc b hmem_b) a ha_mem hba
            have : 0 < jsCompare lt true a b :=
              (jsCompare_pos_iff lt a b).2 ⟨hnab, hba⟩
            omega
        rw [insertCmp_all_gt _ _ _ hall]
        simp [insertCmp, hD, List.reverse_append]
      · have hA : jsCompare lt true a b ≤ 0 := by
          rw [jsCompare_desc_neg] at hD; omega
        rw [insertCmp_append_last _ _ _ _ hA]
        have hup : ∀ x ∈ a :: s', x ∈ a :: (s' ++ [b]) := by
          intro x hx
          rcases List.mem_cons.1 hx with rfl | hx'
          · exact List.mem_cons_self _ _
          · exact List.mem_cons_of_mem _ (hmem_s' x hx')
        have ihh := ih hs'
          (fun x hx => hab x (hmem_s' x hx))
          (fun x hx y hy => hpair x (hmem_s' x hx) y (hmem_s' y hy))
          (fun x hx y hy z hz => htr x (hup x hx) y (hup y hy) z (hup z hz))
          (fun x hx y hy => hasym x (hup x hx) y (hup y hy))
        simp [insertCmp, hD, List.reverse_append, ihh]

theorem sortByCmp_desc_eq_reverse (lt : α → α → Bool) (l : List α)
    (htot : l.Pairwise (fun x y => lt x y ∨ lt y x))
    (htr : ∀ x ∈ l, ∀ y ∈ l, ∀ z ∈ l, lt x y → lt y z → lt x z)
    (hasym : ∀ x ∈ l, ∀ y ∈ l, lt x y → ¬ lt y x) :
    sortByCmp (jsCompare lt false) l
      = (sortByCmp (jsCompare lt true) l).reverse := by
  induction l with
  | nil => rfl
  | cons a l ih =>
      rw [List.pairwise_cons] at htot
      obtain ⟨ha, htotl⟩ := htot
      have hmeml : ∀ x ∈ l, x ∈ a :: l := fun x hx => List.mem_cons_of_mem _ hx
      have hsym : Symmetric (fun x y : α => lt x y ∨ lt y x) :=
        fun x y h => h.symm
      have hpairl : ∀ x ∈ l, ∀ y ∈ l, x = y ∨ lt x y ∨ lt y x := by
        intro x hx y hy
        by_cases hxy : x = y
        · exact Or.inl hxy
        · exact Or.inr (List.Pairwise.forall hsym htotl hx hy hxy)
      have hirr : ∀ x ∈ a :: l, ¬ lt x x := fun x hx h => hasym x hx x hx h h
      have hRcomp : ∀ x ∈ l, ∀ y ∈ l,
          jsCompare lt true x y ≤ 0 ∨ jsCompare lt true y x ≤ 0 := by
        intro x hx y hy
        rcases hpairl x hx y hy with rfl | h | h
        · exact Or.inl ((jsCompare_le_iff lt x x).2
            (Or.inr ⟨hirr x (hmeml x hx), hirr x (hmeml x hx)⟩))
        · exact Or.inl ((jsCompare_le_iff lt x y).2 (Or.inl h))
        · exact Or.inr ((jsCompare_le_iff lt y x).2 (Or.inl h))
      have hchar : ∀ x ∈ l, ∀ y ∈ l, jsCompare lt true x y ≤ 0 →
          lt x y ∨ x = y := by
        intro x hx y hy h1
        rcases (jsCompare_le_iff lt x y).1 h1 with h | ⟨hn1, hn2⟩
        · exact Or.inl h
        · rcases hpairl x hx y hy with h' | h' | h'
          · exact Or.inr h'
          · exact absurd h' hn1
          · exact absurd h' hn2
      have hRtr : ∀ x ∈ l, ∀ y ∈ l, ∀ z ∈ l,
          jsCompare lt true x y ≤ 0 → jsCompare lt true y z ≤ 0 →
            jsCompare lt true x z ≤ 0 := by
        intro x hx y hy z hz h1 h2
        rw [jsCompare_le_iff]
        rcases hchar x hx y hy h1 with hxy | rfl
        · rcases hchar y hy z hz h2 with hyz | rfl
          · exact Or.inl (htr x (hmeml x hx) y (hmeml y hy) z (hmeml z hz) hxy hyz)
          · exact Or.inl hxy
        · rcases hchar x hx z hz h2 with hxz | rfl
          · exact Or.inl hxz
          · exact Or.inr ⟨hirr x (hmeml x hx), hirr x (hmeml x hx)⟩
      have hs : (sortByCmp (jsCompare lt true) l).Pairwise
          (fun x y => jsCompare lt true x y ≤ 0) :=
        sortByCmp_pairwise _ l hRcomp hRtr
      have hsubs : ∀ x ∈ sortByCmp (jsCompare lt true) l, x ∈ l :=
        fun x hx => (sortByCmp_perm _ l).mem_iff.1 hx
      have hupc : ∀ x ∈ a :: sortByCmp (jsCompare lt true) l, x ∈ a :: l := by
        intro x hx
        rcases List.mem_cons.1 hx with rfl | hx'
        · exact List.mem_cons_self _ _
        · exact hmeml x (hsubs x hx')
      have ihh := ih htotl
        (fun x hx y hy z hz => htr x (hmeml x hx) y (hmeml y hy) z (hmeml z hz))
        (fun x hx y hy => hasym x (hmeml x hx) y (hmeml y hy))
      show insertCmp (jsCompare lt false) a (sortByCmp (jsCompare lt false) l)
        = (insertCmp (jsCompare lt true) a (sortByCmp (jsCompare lt true) l)).reverse
      rw [ihh]
      exact insertCmp_desc_reverse lt a _ hs
        (fun x hx => ha x (hsubs x hx))
        (fun x hx y hy => hpairl x (hsubs x hx) y (hsubs y hy))
        (fun x hx y hy z hz => htr x (hupc x hx) y (hupc y hy) z (hupc z hz))
        (fun x hx y hy => hasym x (hupc x hx) y (hupc y hy))

end SortLemmas

/-! ### CSV exporter/reader lemmas -/

section CSVLemmas

theorem noSplit_nil (sep : Char) : NoSplit sep [] := by
  intro rest r rs h
  simpa using h

theorem noSplit_append {sep : Char} {x y : List Char}
    (hx : NoSplit sep x) (hy : NoSplit sep y) : NoSplit sep (x ++ y) := by
  intro rest r rs h
  have h3 := hx (y ++ rest) (y ++ r) rs (hy rest r rs h)
  simpa [List.append_assoc] using h3

theorem noSplit_single {sep c : Char} (h1 : c ≠ sep) (h2 : c ≠ '"') :
    NoSplit sep [c] := by
  intro rest r rs h
  show splitOutside sep false (c :: rest) = (c :: r) :: rs
  unfold splitOutside
  rw [if_neg (by simp [h1])]
  simp only [h2, if_false, if_neg]
  rw [h]

theorem noSplit_plain {sep : Char} {cell : List Char}
    (h : ∀ c ∈ cell, c ≠ sep ∧ c ≠ '"') : NoSplit sep cell := by
  induction cell with
  | nil => exact noSplit_nil sep
  | cons c cs ih =>
      have hc := h c (List.mem_cons_self c cs)
      have := noSplit_append (noSplit_single hc.1 hc.2)
        (ih (fun x hx => h x (List.mem_cons_of_mem _ hx)))
      simpa using this

theorem splitOutside_quoted_aux {sep : Char} (hsep : sep ≠ '"')
    (s : List Char) :
    ∀ rest r rs, splitOutside sep false rest = r :: rs →
      splitOutside sep true (dupQuotes s ++ '"' :: rest)
        = (dupQuotes s ++ '"' :: r) :: rs := by
  induction s with
  | nil =>
      intro rest r rs h
      show splitOutside sep true ('"' :: rest) = ('"' :: r) :: rs
      simp [splitOutside, h]
  | cons c cs ih =>
      intro rest r rs h
      by_cases hc : c = '"'
      · subst hc
        show splitOutside sep true
          ('"' :: '"' :: (dupQuotes cs ++ '"' :: rest))
          = (dupQuotes ('"' :: cs) ++ '"' :: r) :: rs
        simp [splitOutside, dupQuotes, Ne.symm hsep, ih rest r rs h]
      · have hd : dupQuotes (c :: cs) = c :: dupQuotes cs := by
          simp [dupQuotes, hc]
        rw [hd]
        show splitOutside sep true (c :: (dupQuotes cs ++ '"' :: rest))
          = ((c :: dupQuotes cs) ++ '"' :: r) :: rs
        simp [splitOutside, hc, ih rest r rs h]

theorem noSplit_quoted {sep : Char} (hsep : sep ≠ '"') (s : List Char) :
    NoSplit sep ('"' :: (dupQuotes s ++ ['"'])) := by
  intro rest r rs h
  have key := splitOutside_quoted_aux hsep s rest r rs h
  have heq : ('"' :: (dupQuotes s ++ ['"'])) ++ rest
      = '"' :: (dupQuotes s ++ '"' :: rest) := by simp
  rw [heq]
  show splitOutside sep false ('"' :: (dupQuotes s ++ '"' :: rest))
    = (('"' :: (dupQuotes s ++ ['"'])) ++ r) :: rs
  simp [splitOutside, Ne.symm hsep, key]

theorem splitOutside_sepJoin {sep : Char} (lines : List (List Char))
    (hne : lines ≠ [])
    (h : ∀ line ∈ lines, NoSplit sep line) :
    splitOutside sep false (sepJoin sep lines) = lines := by
  induction lines with
  | nil => exact absurd rfl hne
  | cons x tl ih =>
      rcases tl with _ | ⟨y, tl'⟩
      · have hx := h x (List.mem_cons_self x [])
        have h0 : splitOutside sep false ([] : List Char) = [] :: [] := rfl
        have := hx [] [] [] h0
        simpa [sepJoin] using this
      · have hx := h x (List.mem_cons_self _ _)
        have hrest := ih (by simp)
          (fun l hl => h l (List.mem_cons_of_mem _ hl))
        have hsep0 : splitOutside sep false (sep :: sepJoin sep (y :: tl'))
            = [] :: (y :: tl') := by
          unfold splitOutside
          rw [if_pos ⟨rfl, rfl⟩]
          rw [hrest]
        have := hx (sep :: sepJoin sep (y :: tl')) [] (y :: tl') hsep0
        simpa [sepJoin] using this

theorem digitChar_plain (n : Nat) :
    digitChar n ≠ ',' ∧ digitChar n ≠ '"' ∧ digitChar n ≠ '\n' := by
  unfold digitChar
  split_ifs <;> refine ⟨by decide, by decide, by decide⟩

theorem natCharsAux_plain (fuel : Nat) :
    ∀ n, ∀ c ∈ natCharsAux fuel n, c ≠ ',' ∧ c ≠ '"' ∧ c ≠ '\n' := by
  induction fuel with
  | zero => intro n c hc; simp [natCharsAux] at hc
  | succ fuel ih =>
      intro n c hc
      rw [natCharsAux] at hc
      split at hc
      · rw [List.mem_singleton] at hc
        exact hc ▸ digitChar_plain n
      · rcases List.mem_append.1 hc with hc' | hc'
        · exact ih (n / 10) c hc'
        · rw [List.mem_singleton] at hc'
          exact hc' ▸ digitChar_plain (n % 10)

theorem natChars_plain (n : Nat) :
    ∀ c ∈ natChars n, c ≠ ',' ∧ c ≠ '"' ∧ c ≠ '\n' :=
  natCharsAux_plain (n + 1) n

theorem renderNum_chars (m : Int) (s : Nat) :
    ∀ c ∈ renderNum m s,
      c = '-' ∨ c = '.' ∨ c = '0' ∨ c ∈ natChars m.natAbs := by
  intro c hc
  have hsign : ∀ x ∈ (if m < 0 then ['-'] else ([] : List Char)), x = '-' := by
    intro x hx
    split at hx
    · exact List.mem_singleton.1 hx
    · simp at hx
  have hpadmem : ∀ x ∈ padZero (natChars m.natAbs) (s + 1),
      x = '0' ∨ x ∈ natChars m.natAbs := by
    intro x hx
    rcases List.mem_append.1 hx with hx' | hx'
    · exact Or.inl (List.eq_of_mem_replicate hx')
    · exact Or.inr hx'
  rw [renderNum] at hc
  split at hc
  · rcases List.mem_append.1 hc with hc' | hc'
    · exact Or.inl (hsign c hc')
    · exact Or.inr (Or.inr (Or.inr hc'))
  · rcases List.mem_append.1 hc with hc' | hc'
    · exact Or.inl (hsign c hc')
    · rcases List.mem_append.1 hc' with hc'' | hc''
      · rcases hpadmem c (List.mem_of_mem_take hc'') with h | h
        · exact Or.inr (Or.inr (Or.inl h))
        · exact Or.inr (Or.inr (Or.inr h))
      · rcases List.mem_cons.1 hc'' with rfl | hc3
        · exact Or.inr (Or.inl rfl)
        · rcases hpadmem c (List.mem_of_mem_drop hc3) with h | h
          · exact Or.inr (Or.inr (Or.inl h))
          · exact Or.inr (Or.inr (Or.inr h))

theorem renderNum_plain (m : Int) (s : Nat) :
    ∀ c ∈ renderNum m s, c ≠ ',' ∧ c ≠ '"' ∧ c ≠ '\n' := by
  intro c hc
  rcases renderNum_chars m s c hc with rfl | rfl | rfl | hd
  · exact ⟨by decide, by decide, by decide⟩
  · exact ⟨by decide, by decide, by decide⟩
  · exact ⟨by decide, by decide, by decide⟩
  · exact natChars_plain _ c hd

theorem unquoteField_no_quote {f : List Char} (h : '"' ∉ f) :
    unquoteField f = f := by
  cases f with
  | nil => rfl
  | cons c rest =>
      have hc : c ≠ '"' := fun hc => h (by simp [hc])
      simp [unquoteField, hc]

theorem unquoteBody_dupQuotes (s : List Char) :
    unquoteBody (dupQuotes s ++ ['"']) = s := by
  induction s with
  | nil => rfl
  | cons c cs ih =>
      by_cases hc : c = '"'
      · subst hc
        show unquoteBody ('"' :: '"' :: (dupQuotes cs ++ ['"'])) = '"' :: cs
        simp [unquoteBody, ih]
      · have hd : dupQuotes (c :: cs) = c :: dupQuotes cs := by
          simp [dupQuotes, hc]
        rw [hd]
        show unquoteBody (c :: (dupQuotes cs ++ ['"'])) = c :: cs
        unfold unquoteBody
        rw [if_neg hc, ih]

theorem objGet_mem (r : JObj) (k : List Char) (v : JVal)
    (h : objGet r k = some v) : (k, v) ∈ r := by
  induction r with
  | nil => simp [objGet] at h
  | cons kv rest ih =>
      rcases kv with ⟨k', v'⟩
      rw [objGet] at h
      split at h
      · rename_i heq
        rw [Option.some_inj] at h
        subst heq; subst h
        exact List.mem_cons_self _ _
      · exact List.mem_cons_of_mem _ (ih h)

theorem unquoteField_csvCell (r : JObj) (k : List Char) :
    unquoteField (csvCell r k) = cellString r k := by
  cases hv : objGet r k with
  | none =>
      have h1 : csvCell r k = [] := by unfold csvCell; rw [hv]
      have h2 : cellString r k = [] := by unfold cellString; rw [hv]
      rw [h1, h2]; rfl
  | some v =>
      cases v with
      | vNull =>
          have h1 : csvCell r k = [] := by unfold csvCell; rw [hv]
          have h2 : cellString r k = [] := by unfold cellString; rw [hv]
          rw [h1, h2]; rfl
      | vBool b =>
          have h1 : csvCell r k = renderVal (.vBool b) := by
            unfold csvCell; rw [hv]
          have h2 : cellString r k = renderVal (.vBool b) := by
            unfold cellString; rw [hv]
          rw [h1, h2]
          cases b <;> decide
      | vNum m s =>
          have h1 : csvCell r k = renderNum m s := by
            unfold csvCell; rw [hv]; rfl
          have h2 : cellString r k = renderNum m s := by
            unfold cellString; rw [hv]; rfl
          rw [h1, h2]
          exact unquoteField_no_quote
            (fun hq => ((renderNum_plain m s '"' hq).2).1 rfl)
      | vStr cs =>
          have h1 : csvCell r k
              = if ',' ∈ cs ∨ '"' ∈ cs
                then '"' :: (dupQuotes cs ++ ['"']) else cs := by
            unfold csvCell; rw [hv]
          have h2 : cellString r k = cs := by
            unfold cellString; rw [hv]; rfl
          rw [h1, h2]
          by_cases hq : ',' ∈ cs ∨ '"' ∈ cs
          · rw [if_pos hq]
            show unquoteField ('"' :: (dupQuotes cs ++ ['"'])) = cs
            simp [unquoteField, unquoteBody_dupQuotes]
          · rw [if_neg hq]
            push_neg at hq
            exact unquoteField_no_quote hq.2

theorem csvCell_noSplit (sep : Char) (hsep : sep = ',' ∨ sep = '\n')
    (r : JObj) (k : List Char)
    (hval : ∀ v, objGet r k = some v → noNewlineVal v) :
    NoSplit sep (csvCell r k) := by
  have hsepq : sep ≠ '"' := by rcases hsep with rfl | rfl <;> decide
  cases hv : objGet r k with
  | none =>
      have h1 : csvCell r k = [] := by unfold csvCell; rw [hv]
      rw [h1]; exact noSplit_nil sep
  | some v =>
      cases v with
      | vNull =>
          have h1 : csvCell r k = [] := by unfold csvCell; rw [hv]
          rw [h1]; exact noSplit_nil sep
      | vBool b =>
          have h1 : csvCell r k = renderVal (.vBool b) := by
            unfold csvCell; rw [hv]
          rw [h1]
          refine noSplit_plain (fun c hc => ?_)
          have hc' : c ∈ ['t', 'r', 'u', 'e'] ∨ c ∈ ['f', 'a', 'l', 's', 'e'] := by
            cases b
            · exact Or.inr hc
            · exact Or.inl hc
          rcases hsep with rfl | rfl <;>
            rcases hc' with hc' | hc' <;>
            (fin_cases hc' <;> exact ⟨by decide, by decide⟩)
      | vNum m s =>
          have h1 : csvCell r k = renderNum m s := by
            unfold csvCell; rw [hv]; rfl
          rw [h1]
          refine noSplit_plain (fun c hc => ?_)
          have hp := renderNum_plain m s c hc
          rcases hsep with rfl | rfl
          · exact ⟨hp.1, hp.2.1⟩
          · exact ⟨hp.2.2, hp.2.1⟩
      | vStr cs =>
          have h1 : csvCell r k
              = if ',' ∈ cs ∨ '"' ∈ cs
                then '"' :: (dupQuotes cs ++ ['"']) else cs := by
            unfold csvCell; rw [hv]
          rw [h1]
          by_cases hq : ',' ∈ cs ∨ '"' ∈ cs
          · rw [if_pos hq]
            exact noSplit_quoted hsepq cs
          · rw [if_neg hq]
            push_neg at hq
            refine noSplit_plain (fun c hc => ?_)
            refine ⟨?_, fun hc2 => hq.2 (hc2 ▸ hc)⟩
            rcases hsep with rfl | rfl
            · exact fun hc1 => hq.1 (hc1 ▸ hc)
            · have hnl : '\n' ∉ cs := hval _ hv
              exact fun hc1 => hnl (hc1 ▸ hc)

theorem noSplit_row (cells : List (List Char))
    (h : ∀ cell ∈ cells, NoSplit '\n' cell) :
    NoSplit '\n' (sepJoin ',' cells) := by
  induction cells with
  | nil => exact noSplit_nil _
  | cons x tl ih =>
      rcases tl with _ | ⟨y, tl'⟩
      · simpa [sepJoin] using h x (List.mem_cons_self _ _)
      · have heq : sepJoin ',' (x :: y :: tl')
            = x ++ ([','] ++ sepJoin ',' (y :: tl')) := by
          show x ++ ',' :: sepJoin ',' (y :: tl') = _
          simp
        rw [heq]
        exact noSplit_append (h x (List.mem_cons_self _ _))
          (noSplit_append (noSplit_single (by decide) (by decide))
            (ih (fun l hl => h l (List.mem_cons_of_mem _ hl))))

theorem dupQuotes_flatMap (cs : List Char) :
    dupQuotes cs
      = cs.flatMap (fun c => if c = '"' then ['"', '"'] else [c]) := by
  induction cs with
  | nil => rfl
  | cons c cs ih =>
      by_cases hc : c = '"' <;> simp [dupQuotes, hc, ih]

theorem dedupFoldl_mem (l : List (List Char)) :
    ∀ (acc : List (List Char)) (x : List Char),
      x ∈ l.foldl (fun acc k => if k ∈ acc then acc else acc ++ [k]) acc
        ↔ x ∈ acc ∨ x ∈ l := by
  induction l with
  | nil => intro acc x; simp
  | cons k tl ih =>
      intro acc x
      rw [List.foldl_cons]
      by_cases hk : k ∈ acc
      · rw [if_pos hk, ih]
        simp only [List.mem_cons]
        constructor
        · rintro (h | h)
          · exact Or.inl h
          · exact Or.inr (Or.inr h)
        · rintro (h | rfl | h)
          · exact Or.inl h
          · exact Or.inl hk
          · exact Or.inr h
      · rw [if_neg hk, ih]
        simp only [List.mem_append, List.mem_singleton, List.mem_cons]
        tauto

theorem dedupFoldl_nodup (l : List (List Char)) :
    ∀ acc : List (List Char), acc.Nodup →
      (l.foldl (fun acc k => if k ∈ acc then acc else acc ++ [k]) acc).Nodup := by
  induction l with
  | nil => intro acc h; exact h
  | cons k tl ih =>
      intro acc h
      rw [List.foldl_cons]
      by_cases hk : k ∈ acc
      · rw [if_pos hk]; exact ih acc h
      · rw [if_neg hk]
        exact ih (acc ++ [k]) (by simp [List.nodup_append, h, hk])

theorem dedupFoldl_sublist (l : List (List Char)) :
    ∀ acc : List (List Char),
      List.Sublist (l.foldl (fun acc k => if k ∈ acc then acc else acc ++ [k]) acc)
        (acc ++ l) := by
  induction l with
  | nil =>
      intro acc
      rw [List.foldl_nil, List.append_nil]
  | cons k tl ih =>
      intro acc
      rw [List.foldl_cons]
      by_cases hk : k ∈ acc
      · rw [if_pos hk]
        exact (ih acc).trans ((List.sublist_cons_self k tl).append_left acc)
      · rw [if_neg hk]
        have := ih (acc ++ [k])
        rwa [List.append_assoc, List.singleton_append] at this

theorem allKeys_mem (rs : List JObj) (k : List Char) :
    k ∈ allKeys rs ↔ ∃ r ∈ rs, k ∈ objKeys r := by
  unfold allKeys dedupFirst
  rw [dedupFoldl_mem]
  constructor
  · rintro (h | h)
    · exact absurd h (List.not_mem_nil k)
    · obtain ⟨r, hr, hk⟩ := List.mem_flatMap.1 h
      exact ⟨r, hr, hk⟩
  · rintro ⟨r, hr, hk⟩
    exact Or.inr (List.mem_flatMap.2 ⟨r, hr, hk⟩)

theorem allKeys_nodup (rs : List JObj) : (allKeys rs).Nodup :=
  dedupFoldl_nodup _ [] List.nodup_nil

theorem allKeys_sublist (rs : List JObj) :
    List.Sublist (allKeys rs) (rs.flatMap objKeys) := by
  have := dedupFoldl_sublist (rs.flatMap objKeys) []
  simpa using this

theorem parseCSV_csvContent (rs : List JObj)
    (_hne : rs ≠ [])
    (hcols : allKeys rs ≠ [])
    (hkeys : ∀ k ∈ allKeys rs, plainKey k)
    (hvals : ∀ r ∈ rs, ∀ kv ∈ r, noNewlineVal kv.2) :
    parseCSV (csvContent rs) = expectedTable rs := by
  have hval' : ∀ r ∈ rs, ∀ v k, objGet r k = some v → noNewlineVal v :=
    fun r hr v k hv => hvals r hr (k, v) (objGet_mem r k v hv)
  have hkeyplain : ∀ k ∈ allKeys rs, ∀ c ∈ k,
      c ≠ ',' ∧ c ≠ '"' ∧ c ≠ '\n' := by
    intro k hk c hc
    obtain ⟨h1, h2, h3⟩ := hkeys k hk
    exact ⟨fun e => h1 (e ▸ hc), fun e => h2 (e ▸ hc), fun e => h3 (e ▸ hc)⟩
  have hlines : splitOutside '\n' false (csvContent rs)
      = sepJoin ',' (allKeys rs) :: csvRows rs := by
    apply splitOutside_sepJoin
    · simp
    · intro line hl
      rcases List.mem_cons.1 hl with rfl | hl'
      · apply noSplit_row
        intro cell hcell
        exact noSplit_plain (fun c hc =>
          ⟨(hkeyplain cell hcell c hc).2.2, (hkeyplain cell hcell c hc).2.1⟩)
      · obtain ⟨r, hr, rfl⟩ := List.mem_map.1 hl'
        apply noSplit_row
        intro cell hcell
        obtain ⟨k, _hk, rfl⟩ := List.mem_map.1 hcell
        exact csvCell_noSplit '\n' (Or.inr rfl) r k
          (fun v hv => hval' r hr v k hv)
  unfold parseCSV expectedTable
  rw [hlines, List.map_cons]
  congr 1
  · have hsplit : splitOutside ',' false (sepJoin ',' (allKeys rs))
        = allKeys rs := by
      apply splitOutside_sepJoin _ hcols
      intro k hk
      exact noSplit_plain (fun c hc =>
        ⟨(hkeyplain k hk c hc).1, (hkeyplain k hk c hc).2.1⟩)
    rw [hsplit]
    have hid : ∀ k ∈ allKeys rs, unquoteField k = id k :=
      fun k hk => unquoteField_no_quote (hkeys k hk).2.1
    rw [List.map_congr_left hid, List.map_id]
  · unfold csvRows
    rw [List.map_map]
    apply List.map_congr_left
    intro r hr
    show (splitOutside ','  false
        (sepJoin ',' ((allKeys rs).map (csvCell r)))).map unquoteField
      = (allKeys rs).map (fun k => cellString r k)
    have hsplit : splitOutside ',' false
        (sepJoin ',' ((allKeys rs).map (csvCell r)))
        = (allKeys rs).map (csvCell r) := by
      apply splitOutside_sepJoin
      · simpa using hcols
      · intro cell hcell
        obtain ⟨k, _hk, rfl⟩ := List.mem_map.1 hcell
        exact csvCell_noSplit ',' (Or.inl rfl) r k
          (fun v hv => hval' r hr v k hv)
    rw [hsplit, List.map_map]
    apply List.map_congr_left
    intro k _hk
    exact unquoteField_csvCell r k

end CSVLemmas

end HG

/-- C4: the sort-direction toggle state machine.  From any state, clicking
a heading whose key is not the current sort key (including the unsorted
initial state) yields `(clicked, asc)`; clicking the currently-ascending
key yields `(clicked, desc)`; clicking the currently-descending key yields
`(clicked, asc)`; and after any first click the state is never unsorted:
the key is the clicked key and repeated clicks cycle asc → desc → asc. -/
theorem c4_sort_toggle (cfg : HG.SortConfig) (k : String) :
    (cfg.key ≠ some k → HG.handleSort k cfg = ⟨some k, .asc⟩) ∧
    HG.handleSort k ⟨some k, .asc⟩ = ⟨some k, .desc⟩ ∧
    HG.handleSort k ⟨some k, .desc⟩ = ⟨some k, .asc⟩ ∧
    (HG.handleSort k cfg).key = some k ∧
    (HG.handleSort k cfg = ⟨some k, .asc⟩ ∨ HG.handleSort k cfg = ⟨some k, .desc⟩) ∧
    HG.handleSort k (HG.handleSort k ⟨some k, .asc⟩) = ⟨some k, .asc⟩ ∧
    (HG.handleSort k cfg = ⟨some k, .asc⟩ →
      HG.handleSort k (HG.handleSort k cfg) = ⟨some k, .desc⟩ ∧
      HG.handleSort k (HG.handleSort k (HG.handleSort k cfg)) = ⟨some k, .asc⟩) := by
  rcases cfg with ⟨ck, cd⟩
  unfold HG.handleSort
  rcases cd <;> by_cases h : ck = some k <;> simp [h]

/-- Witness for C4 at the initial unsorted state and key `"title"`. -/
theorem c4_sort_toggle_witness :
    HG.handleSort "title" HG.initialSortConfig = ⟨some "title", .asc⟩ :=
  (c4_sort_toggle HG.initialSortConfig "title").1 (by decide)

/-- C6: every failed login attempt — whatever the HTTP status — reports the
single message "Invalid admin credentials", does not change the admin flag
(which therefore remains `false` if it was `false`), and persists neither a
token nor a user object to client-side storage. -/
theorem c6_login_failure (st : HG.SessionState) (status status' : Nat) :
    (HG.handleLoginSubmit (.failure status) st).loginError = "Invalid admin credentials" ∧
    HG.handleLoginSubmit (.failure status) st = HG.handleLoginSubmit (.failure status') st ∧
    (HG.handleLoginSubmit (.failure status) st).isAdmin = st.isAdmin ∧
    (st.isAdmin = false → (HG.handleLoginSubmit (.failure status) st).isAdmin = false) ∧
    (HG.handleLoginSubmit (.failure status) st).storedToken = st.storedToken ∧
    (HG.handleLoginSubmit (.failure status) st).storedUser = st.storedUser := by
  unfold HG.handleLoginSubmit
  refine ⟨rfl, rfl, rfl, fun h => h, rfl, rfl⟩

/-- Witness for C6: wrong-password login attempt (status 401) from the
logged-out state. -/
theorem c6_login_failure_witness :
    (HG.handleLoginSubmit (.failure 401)
      ⟨false, none, none, none, none, ""⟩).isAdmin = false :=
  (c6_login_failure ⟨false, none, none, none, none, ""⟩ 401 500).2.2.2.1 rfl

/-- C9: login writes both durable keys together, logout removes both
together, startup restore writes neither; hence any sequence of these
operations preserves the invariant that `admin_token` and `admin_user` are
both present or both absent. -/
theorem c9_paired_storage (st : HG.SessionState) (ops : List HG.SessionOp)
    (t u : String) (h : HG.pairedStorage st) :
    (HG.handleAdminLogin t u st).storedToken = some t ∧
    (HG.handleAdminLogin t u st).storedUser = some u ∧
    (HG.handleAdminLogout st).storedToken = none ∧
    (HG.handleAdminLogout st).storedUser = none ∧
    (HG.restoreSession st).storedToken = st.storedToken ∧
    (HG.restoreSession st).storedUser = st.storedUser ∧
    HG.pairedStorage (HG.runSessionOps st ops) := by
  refine ⟨rfl, rfl, rfl, rfl, ?_, ?_, ?_⟩
  · unfold HG.restoreSession
    rcases hst : st.storedToken <;> rcases hsu : st.storedUser <;> simp [hst, hsu]
  · unfold HG.restoreSession
    rcases hst : st.storedToken <;> rcases hsu : st.storedUser <;> simp [hst, hsu]
  · induction ops generalizing st with
    | nil => exact h
    | cons op rest ih =>
        apply ih (HG.applySessionOp st op)
        rcases op with ⟨t', u'⟩ | _ | _
        · simp [HG.applySessionOp, HG.handleAdminLogin, HG.pairedStorage]
        · simp [HG.applySessionOp, HG.handleAdminLogout, HG.pairedStorage]
        · unfold HG.applySessionOp HG.restoreSession
          rcases hst : st.storedToken <;> rcases hsu : st.storedUser <;>
            simp_all [HG.pairedStorage]

/-- C7: with unique ids and the target id present, a confirmed successful
delete removes exactly the record bearing that id: the remaining records
are unchanged and keep their relative order. -/
theorem c7_delete_success (st : HG.CatalogState) (gid : Int)
    (hnodup : (st.data.map HG.Game.id).Nodup)
    (hmem : gid ∈ st.data.map HG.Game.id) :
    ∃ l₁ g l₂, st.data = l₁ ++ g :: l₂ ∧ g.id = gid ∧
      (HG.handleDeleteGame true .ok gid st).data = l₁ ++ l₂ := by
  obtain ⟨g, hgmem, hgid⟩ := List.mem_map.1 hmem
  obtain ⟨l₁, l₂, hdec⟩ := List.append_of_mem hgmem
  refine ⟨l₁, g, l₂, hdec, hgid, ?_⟩
  have hnd : ((l₁ ++ g :: l₂).map HG.Game.id).Nodup := hdec ▸ hnodup
  rw [List.map_append, List.nodup_append] at hnd
  obtain ⟨-, hnd2, hdisj⟩ := hnd
  have h1 : ∀ x ∈ l₁, x.id ≠ gid := by
    intro x hx heq
    exact hdisj (List.mem_map_of_mem _ hx)
      (by simp [heq, hgid.symm])
  have h2 : ∀ x ∈ l₂, x.id ≠ gid := by
    intro x hx heq
    rw [List.map_cons, List.nodup_cons] at hnd2
    exact hnd2.1 (by
      have := List.mem_map_of_mem HG.Game.id hx
      rwa [heq, hgid.symm] at this)
  have hst : (HG.handleDeleteGame true .ok gid st).data
      = st.data.filter (fun g => g.id ≠ gid) := by
    simp [HG.handleDeleteGame]
  have hfilter : ∀ (m : List HG.Game), (∀ x ∈ m, x.id ≠ gid) →
      m.filter (fun x => x.id ≠ gid) = m := fun m hm =>
    List.filter_eq_self.mpr (fun x hx => decide_eq_true (hm x hx))
  rw [hst, hdec, List.filter_append, hfilter l₁ h1,
      List.filter_cons_of_neg (by simp [hgid]), hfilter l₂ h2]

/-- Witness for C7: deleting id 3 out of `[id 1, id 3, id 4]`. -/
theorem c7_delete_success_witness :
    ∃ l₁ g l₂,
      ([⟨1, "A", none, none, none, none, none, none, false, ""⟩,
        ⟨3, "B", none, none, none, none, none, none, false, ""⟩,
        ⟨4, "C", none, none, none, none, none, none, false, ""⟩] : List HG.Game)
        = l₁ ++ g :: l₂ ∧ g.id = 3 ∧
      (HG.handleDeleteGame true .ok 3
        ⟨[⟨1, "A", none, none, none, none, none, none, false, ""⟩,
          ⟨3, "B", none, none, none, none, none, none, false, ""⟩,
          ⟨4, "C", none, none, none, none, none, none, false, ""⟩], none⟩).data
        = l₁ ++ l₂ :=
  c7_delete_success
    ⟨[⟨1, "A", none, none, none, none, none, none, false, ""⟩,
      ⟨3, "B", none, none, none, none, none, none, false, ""⟩,
      ⟨4, "C", none, none, none, none, none, none, false, ""⟩], none⟩ 3
    (by decide) (by decide)

/-- C8: on any non-success response, create, update and delete all leave
the local record set exactly as it was and only set the user-facing banner
message; an unconfirmed delete changes nothing at all.  (Each handler is a
total state-transition function: the `catch` converts the failure to the
banner string, so no exception escapes the operation boundary.) -/
theorem c8_mutation_atomicity (st : HG.CatalogState) (status : Nat)
    (gid : Int) (resp : HG.DelResponse) :
    (HG.handleAddGame (.fail status) st).data = st.data ∧
    (HG.handleAddGame (.fail status) st).error
      = some "Failed to add game. Please try again." ∧
    (HG.handleUpdateGame (.fail status) st).data = st.data ∧
    (HG.handleUpdateGame (.fail status) st).error
      = some "Failed to update game. Please try again." ∧
    (HG.handleDeleteGame true (.fail status) gid st).data = st.data ∧
    (HG.handleDeleteGame true (.fail status) gid st).error
      = some "Failed to delete game. Please try again." ∧
    HG.handleDeleteGame false resp gid st = st := by
  exact ⟨rfl, rfl, rfl, rfl, rfl, rfl, rfl⟩

/-- C1 counterexample: on the `handleUpdateGame` path the form submission
is sent verbatim, so the empty incoming `platform` is sent as the empty
string, not as the stored value `"PS4"` — the field is erased rather than
preserved. -/
theorem c1_counterexample :
    c1Form.platform = "" ∧ c1Orig.platform = some "PS4" ∧
    (HG.handleUpdateGameBody c1Form).platform = "" ∧
    (HG.handleUpdateGameBody c1Form).platform ≠ "PS4" :=
  ⟨rfl, rfl, rfl, by decide⟩

/-- C1 amended: on the `handleSaveGame` edit path the sent body has merge
semantics — every field whose incoming form value is empty (text) or null
(numeric) is sent as the stored value, every non-empty incoming value
replaces it, and `opened` is always the submitted boolean; in particular a
submission carrying only `opened := false` with all other fields empty
preserves every stored field. -/
theorem c1_merge_not_erase (form : HG.SubmitData) (orig : HG.Game) :
    ((form.title = "" → (HG.mergeForUpdate form orig).title = orig.title) ∧
     (form.title ≠ "" → (HG.mergeForUpdate form orig).title = form.title)) ∧
    ((form.platform = "" → (HG.mergeForUpdate form orig).platform = orig.platform) ∧
     (form.platform ≠ "" → (HG.mergeForUpdate form orig).platform = some form.platform)) ∧
    ((form.genre = "" → (HG.mergeForUpdate form orig).genre = orig.genre) ∧
     (form.genre ≠ "" → (HG.mergeForUpdate form orig).genre = some form.genre)) ∧
    ((form.region = "" → (HG.mergeForUpdate form orig).region = orig.region) ∧
     (form.region ≠ "" → (HG.mergeForUpdate form orig).region = some form.region)) ∧
    ((form.publisher = "" → (HG.mergeForUpdate form orig).publisher = orig.publisher) ∧
     (form.publisher ≠ "" → (HG.mergeForUpdate form orig).publisher = some form.publisher)) ∧
    ((form.release_year = none →
        (HG.mergeForUpdate form orig).release_year = orig.release_year) ∧
     (∀ y, form.release_year = some y →
        (HG.mergeForUpdate form orig).release_year = some y)) ∧
    ((form.price = none → (HG.mergeForUpdate form orig).price = orig.price) ∧
     (∀ p, form.price = some p → (HG.mergeForUpdate form orig).price = some p)) ∧
    (HG.mergeForUpdate form orig).opened = form.opened ∧
    (form.title = "" → form.platform = "" → form.genre = "" →
     form.region = "" → form.publisher = "" →
     form.release_year = none → form.price = none → form.opened = false →
      HG.mergeForUpdate form orig =
        { title := orig.title, platform := orig.platform,
          genre := orig.genre, release_year := orig.release_year,
          price := orig.price, region := orig.region,
          publisher := orig.publisher, opened := false }) := by
  have hmt : ∀ (fv : String) (ov : Option String),
      (fv = "" → HG.mergeText fv ov = ov) ∧
      (fv ≠ "" → HG.mergeText fv ov = some fv) := by
    intro fv ov
    unfold HG.mergeText
    constructor
    · intro h; rw [if_pos h]
    · intro h; rw [if_neg h]
  refine ⟨⟨?t1, ?t2⟩, hmt _ _, hmt _ _, hmt _ _, hmt _ _,
    ⟨?y1, ?y2⟩, ⟨?p1, ?p2⟩, rfl, ?sc⟩
  case t1 =>
    intro h
    show (if form.title = "" then orig.title else form.title) = orig.title
    rw [if_pos h]
  case t2 =>
    intro h
    show (if form.title = "" then orig.title else form.title) = form.title
    rw [if_neg h]
  case y1 => intro h; simp [HG.mergeForUpdate, h]
  case y2 => intro y hy; simp [HG.mergeForUpdate, hy]
  case p1 => intro h; simp [HG.mergeForUpdate, h]
  case p2 => intro p hp; simp [HG.mergeForUpdate, hp]
  case sc =>
    intro h1 h2 h3 h4 h5 h6 h7 h8
    simp [HG.mergeForUpdate, HG.mergeText, h1, h2, h3, h4, h5, h6, h7, h8]

/-- Witness for C1 (amended): the `{opened:false}`-only submission against
the stored record 7 preserves every stored field. -/
theorem c1_merge_not_erase_witness :
    HG.mergeForUpdate c1EmptyForm c1Orig =
      { title := c1Orig.title, platform := c1Orig.platform,
        genre := c1Orig.genre, release_year := c1Orig.release_year,
        price := c1Orig.price, region := c1Orig.region,
        publisher := c1Orig.publisher, opened := false } :=
  (c1_merge_not_erase c1EmptyForm c1Orig).2.2.2.2.2.2.2.2
    rfl rfl rfl rfl rfl rfl rfl rfl

/-- Witness for C9: a login/restore/logout/login sequence from the fresh
(empty-storage) state keeps the two keys paired. -/
theorem c9_paired_storage_witness :
    HG.pairedStorage (HG.runSessionOps ⟨false, none, none, none, none, ""⟩
      [.login "tok" "usr", .restore, .logout, .login "tok2" "usr2"]) :=
  (c9_paired_storage ⟨false, none, none, none, none, ""⟩
      [.login "tok" "usr", .restore, .logout, .login "tok2" "usr2"]
      "x" "y" (by decide)).2.2.2.2.2.2

/-- C5: for a non-empty record set whose values under the sort key are
totally ordered with no two records tied, sorting descending yields
exactly the reverse of sorting ascending. -/
theorem c5_desc_is_reverse_of_asc (data : List HG.JObj) (k : String)
    (_hne : data ≠ [])
    (htot : data.Pairwise
      (fun a b => HG.recLt k.toList a b ∨ HG.recLt k.toList b a))
    (htr : ∀ a ∈ data, ∀ b ∈ data, ∀ c ∈ data,
      HG.recLt k.toList a b → HG.recLt k.toList b c → HG.recLt k.toList a c)
    (hasym : ∀ a ∈ data, ∀ b ∈ data,
      HG.recLt k.toList a b → ¬ HG.recLt k.toList b a) :
    HG.sortedData data ⟨some k, .desc⟩
      = (HG.sortedData data ⟨some k, .asc⟩).reverse :=
  HG.sortByCmp_desc_eq_reverse (HG.recLt k.toList) data htot htr hasym

/-- Witness for C5: three records with untied prices 21.26, 5, 103.5. -/
theorem c5_desc_is_reverse_of_asc_witness :
    HG.sortedData c5Data ⟨some "price", .desc⟩
      = (HG.sortedData c5Data ⟨some "price", .asc⟩).reverse :=
  c5_desc_is_reverse_of_asc c5Data "price" (by decide) (by decide)
    (by decide) (by decide)

/-- C2 counterexample: the record set `[{title:"a\nb"}]` exports as the
raw text `title\na\nb` — the exporter only quotes strings containing a
comma or a double-quote, so the newline is written bare and a conforming
CSV reader recovers three one-field rows instead of the original
one-record table. -/
theorem c2_counterexample :
    HG.parseCSV (HG.csvContent HG.c2BadData)
        = [["title".toList], [['a']], [['b']]] ∧
    HG.parseCSV (HG.csvContent HG.c2BadData) ≠ HG.expectedTable HG.c2BadData :=
  ⟨by decide, by decide⟩

/-- C2 amended: for every non-empty record set with at least one column,
whose keys contain no comma, double-quote or newline, and whose string
values contain no newline, a conforming CSV parser applied to the
exporter's output recovers, for every record and every column, exactly the
direct stringification of the original field value, with null or absent
values recovered as the empty string. -/
theorem c2_csv_roundtrip (rs : List HG.JObj)
    (hne : rs ≠ [])
    (hcols : HG.allKeys rs ≠ [])
    (hkeys : ∀ k ∈ HG.allKeys rs, HG.plainKey k)
    (hvals : ∀ r ∈ rs, ∀ kv ∈ r, HG.noNewlineVal kv.2) :
    HG.parseCSV (HG.csvContent rs) = HG.expectedTable rs :=
  HG.parseCSV_csvContent rs hne hcols hkeys hvals

/-- Witness for C2 (amended): a two-record set with a quoted value
(`"a,\"b"`), a null, missing keys, a number and a boolean round-trips
exactly. -/
theorem c2_csv_roundtrip_witness :
    HG.parseCSV (HG.csvContent HG.c2WitnessData)
      = HG.expectedTable HG.c2WitnessData :=
  c2_csv_roundtrip HG.c2WitnessData (by decide) (by decide) (by decide)
    (by decide)

/-- C3: CSV serialization format.  The single record
`{id:1,title:"Doom Eternal",platform:"PS4",price:21.26}` exports exactly
as the two lines `id,title,platform,price` and `1,Doom Eternal,PS4,21.26`;
the column order is the first-seen union of keys across records in
sequence order (demonstrated non-alphabetical on a heterogeneous set, and
characterized: a duplicate-free subsequence of the concatenated key lists
containing exactly the keys that occur); a missing or null field renders
as the empty string; a string containing a comma or double-quote is
wrapped in double quotes with internal quotes doubled; any other string
renders verbatim; and the output is the header and the rows joined by
newlines. -/
theorem c3_csv_serialization (rs : List HG.JObj) (r : HG.JObj)
    (k cs : List Char) :
    (HG.csvContent [HG.c3Example]
        = "id,title,platform,price\n1,Doom Eternal,PS4,21.26".toList) ∧
    (HG.allKeys HG.c3Hetero = ["id".toList, "title".toList, "aaa".toList]) ∧
    (k ∈ HG.allKeys rs ↔ ∃ r' ∈ rs, k ∈ HG.objKeys r') ∧
    (HG.allKeys rs).Nodup ∧
    List.Sublist (HG.allKeys rs) (rs.flatMap HG.objKeys) ∧
    (HG.objGet r k = none → HG.csvCell r k = []) ∧
    (HG.objGet r k = some .vNull → HG.csvCell r k = []) ∧
    (HG.objGet r k = some (.vStr cs) → (',' ∈ cs ∨ '"' ∈ cs) →
      HG.csvCell r k
        = '"' :: ((cs.flatMap fun c => if c = '"' then ['"', '"'] else [c])
            ++ ['"'])) ∧
    (HG.objGet r k = some (.vStr cs) → ¬(',' ∈ cs ∨ '"' ∈ cs) →
      HG.csvCell r k = cs) ∧
    (rs ≠ [] → HG.csvContent rs
        = HG.sepJoin ',' (HG.allKeys rs)
            ++ '\n' :: HG.sepJoin '\n' (HG.csvRows rs)) := by
  refine ⟨by decide, by decide, HG.allKeys_mem rs k, HG.allKeys_nodup rs,
    HG.allKeys_sublist rs, ?_, ?_, ?_, ?_, ?_⟩
  · intro h; unfold HG.csvCell; rw [h]
  · intro h; unfold HG.csvCell; rw [h]
  · intro h hq
    have h1 : HG.csvCell r k
        = if ',' ∈ cs ∨ '"' ∈ cs
          then '"' :: (HG.dupQuotes cs ++ ['"']) else cs := by
      unfold HG.csvCell; rw [h]
    rw [h1, if_pos hq, HG.dupQuotes_flatMap]
  · intro h hq
    have h1 : HG.csvCell r k
        = if ',' ∈ cs ∨ '"' ∈ cs
          then '"' :: (HG.dupQuotes cs ++ ['"']) else cs := by
      unfold HG.csvCell; rw [h]
    rw [h1, if_neg hq]
  · intro h
    rcases rs with _ | ⟨r0, rest⟩
    · exact absurd rfl h
    · rfl

/-- Witness for C3: the record `{t:"a,b"}` has its comma-containing value
quoted with doubled internal quotes. -/
theorem c3_csv_serialization_witness :
    HG.csvCell [("t".toList, HG.JVal.vStr "a,b".toList)] "t".toList
      = '"' :: ((("a,b".toList).flatMap
            fun c => if c = '"' then ['"', '"'] else [c]) ++ ['"']) :=
  (c3_csv_serialization [] [("t".toList, .vStr "a,b".toList)]
      "t".toList "a,b".toList).2.2.2.2.2.2.2.1 (by decide) (by decide)
